/-
  Verification of the federation core of the conduit homeserver
  (sources: src/server_server.rs, src/federation.rs,
  src/database/rooms/state.rs) against its natural-language
  specification.

  The Rust code is shallowly embedded: BTreeMap values become
  association lists (lookup finds the first matching key, insert
  replaces in place), database and network calls become explicit
  oracle parameters, fallible code returns Except, and a reached
  todo-style diverging branch is modelled as a distinguished error
  value.  Machine integers are Nat with explicit wrap-around
  (mod 2 ^ 64) where Rust usize arithmetic can overflow.
-/
import Mathlib

/-! ## Association-list maps (embedding of BTreeMap) -/

/-- Lookup of a key in an association list: first binding wins.
Embeds `BTreeMap::get`. -/
def alLookup {κ α : Type} [DecidableEq κ] : List (κ × α) → κ → Option α
  | [], _ => none
  | (k', v) :: rest, k => if k = k' then some v else alLookup rest k

/-- Key membership; embeds `BTreeMap::contains_key`. -/
def alContains {κ α : Type} [DecidableEq κ] (m : List (κ × α)) (k : κ) : Bool :=
  (alLookup m k).isSome

/-- Insert that replaces an existing binding in place and otherwise
appends; embeds `BTreeMap::insert` up to ordering of keys (no claim
below depends on the iteration order of a result map). -/
def alInsert {κ α : Type} [DecidableEq κ] : List (κ × α) → κ → α → List (κ × α)
  | [], k, v => [(k, v)]
  | (k', v') :: rest, k, v =>
    if k = k' then (k, v) :: rest else (k', v') :: alInsert rest k v

/-- The keys of an association list. -/
def keysOf {κ α : Type} (m : List (κ × α)) : List κ :=
  m.map Prod.fst

/-- A state-map slot: `(event_type, state_key)`, from
`type StateMap<T> = BTreeMap<(EventType, Option<String>), T>`
in src/database/rooms/state.rs. -/
abbrev SlotKey := String × Option String

/-- A room state map from slots to event ids. -/
abbrev SMap (α : Type) := List (SlotKey × α)

/-! ## Outbound federation requests (src/server_server.rs, `send_request`) -/

/-- Strips trailing dots, embedding `str::trim_end_matches('.')`
applied to the first SRV target. -/
def trimTrailingDots (s : String) : String :=
  String.mk ((s.data.reverse.dropWhile (fun c => c = '.')).reverse)

/-- Character membership in a string, embedding `str::find(char)
.is_none()` checks (negated). -/
def strContainsChar (s : String) (c : Char) : Bool :=
  s.data.any (fun x => x = c)

/-- Formats one authorization header value, embedding the
`format!` call at src/server_server.rs lines 144-149. -/
def fmtAuth (own key sg : String) : String :=
  "X-Matrix origin=" ++ own ++ ",key=\x22" ++ key ++ "\x22,sig=\x22" ++ sg ++ "\x22"

/-- The `Authorization` values of the request header map after the
double loop at src/server_server.rs lines 140-153.  `HeaderMap::insert`
replaces every previous value stored under the same header name, so
each iteration leaves exactly the latest header. -/
def authHeadersOf (own : String) (signatures : List (String × List (String × String))) :
    List String :=
  (signatures.flatMap Prod.snd).foldl (fun _acc ks => [fmtAuth own ks.1 ks.2]) []

/-- Observable outcome of `send_request` (src/server_server.rs,
lines 52-164) up to the point where the request is handed to the
transport: the resolved URL authority, which SRV names were queried,
the `Host` header if one was set, and the `origin`/`destination`
fields of the signed request JSON together with the attached
`Authorization` headers. -/
structure OutboundRequest where
  actualDestination : String
  srvQueries : List String
  hostHeader : Option String
  jsonOrigin : String
  jsonDestination : String
  authHeaders : List String
deriving DecidableEq, Repr

/-- Embedding of `send_request` (src/server_server.rs lines 52-164).
`wellKnown` is the result of `request_well_known` (the `m.server`
value, if the lookup succeeded), `srv` maps an SRV name to the first
target of a successful `_matrix._tcp` lookup, and `signatures` is the
`signatures` object of the signed request JSON (server name to a list
of key-id/signature pairs, in iteration order). -/
def send_request (ownServer : String) (wellKnown : Option String)
    (srv : String → Option String)
    (signatures : List (String × List (String × String)))
    (destination : String) : OutboundRequest :=
  match wellKnown with
  | some delegated =>
    match srv ("_matrix._tcp." ++ delegated) with
    | some target =>
      { actualDestination := "https://" ++ trimTrailingDots target
        srvQueries := ["_matrix._tcp." ++ delegated]
        hostHeader := some delegated
        jsonOrigin := ownServer
        jsonDestination := destination
        authHeaders := authHeadersOf ownServer signatures }
    | none =>
      { actualDestination :=
          "https://" ++ (if strContainsChar delegated ':' then delegated else delegated ++ ":8448")
        srvQueries := ["_matrix._tcp." ++ delegated]
        hostHeader := none
        jsonOrigin := ownServer
        jsonDestination := destination
        authHeaders := authHeadersOf ownServer signatures }
  | none =>
    { actualDestination :=
        "https://" ++ (if strContainsChar destination ':' then destination else destination ++ ":8448")
      srvQueries := []
      hostHeader := none
      jsonOrigin := ownServer
      jsonDestination := destination
      authHeaders := authHeadersOf ownServer signatures }

/-! ## State-group lookup (src/database/rooms/state.rs) -/

/-- Byte strings are lists of byte values. -/
abbrev Bytes := List Nat

/-- Modelled from the spec: `utils::u64_from_bytes` (the `utils`
module is not among the provided sources; section 6 of the spec fixes
numeric values as big-endian).  Decodes a big-endian u64 from exactly
eight bytes and fails on any other length, as a slice-to-array
conversion does. -/
def u64_from_bytes (b : Bytes) : Option Nat :=
  if b.length = 8 then some (b.foldl (fun acc x => acc * 256 + x) 0) else none

/-- A sled tree is a sequence of key/value byte-string pairs in key
order; `iter` yields the pairs in that order. -/
abbrev SledTree := List (Bytes × Bytes)

/-- Embedding of `RoomState::prev_state_id`
(src/database/rooms/state.rs lines 255-277) over the
`stategroupid_eventnumidrange` tree.  The source computes
`iter().position(..)` into a usize `idx` and then
`iter().skip(idx - 2).next()`; the usize subtraction wraps modulo
2 ^ 64 (two's complement), written out explicitly here, and the
survivor's VALUE bytes are decoded as a u64. -/
def prev_state_id (tree : SledTree) (current : Nat) : Option Nat :=
  match tree.findIdx? (fun kv => u64_from_bytes kv.1 == some current) with
  | some idx =>
    ((tree.drop ((idx + (2 ^ 64 - 2)) % 2 ^ 64)).head?).bind (fun kv => u64_from_bytes kv.2)
  | none => none

/-! ## Inbound transaction handler (src/server_server.rs, `send_transaction_message_route`) -/

/-- Room versions, embedding `ruma::RoomVersionId` for the versions
the source mentions. -/
inductive RoomVersionId
  | version1
  | version2
  | version3
  | version4
  | version5
  | version6
deriving DecidableEq, Repr

/-- An incoming PDU of a transaction, with the fields the handler
reads.  `body` stands for the raw canonical content the reference
hash is computed over. -/
structure InPdu where
  sender : String
  room_id : String
  kind : String
  state_key : Option String
  body : Nat
deriving DecidableEq, Repr

/-- Oracle view of the database, the network and the external
`state_res` crate as used by the handler.  `resolve` receives the
room id, the room version passed by the caller, the candidate state
sets and the event ids supplied in the auxiliary event map, and
returns the resolved state map or an error string.  `room_version`
is the per-room version stored in the database (the create event);
the handler never reads it. -/
structure TxnDb where
  is_joined : String → String → Bool
  exists_room : String → Bool
  room_state_full : String → SMap String
  get_room_state : String → String → List InPdu
  ref_hash : Nat → RoomVersionId → String
  resolve : String → RoomVersionId → List (SMap String) → List String →
    Except String (SMap String)
  room_version : String → RoomVersionId

/-- Embedding of `process_incoming_pdu` (src/server_server.rs lines
502-520): derive the event id as `$` followed by the reference hash
of the body at the given room version, and return it beside the
event value. -/
def process_incoming_pdu (ref_hash : Nat → RoomVersionId → String) (pdu : InPdu)
    (version : RoomVersionId) : String × InPdu :=
  ("$" ++ ref_hash pdu.body version, pdu)

/-- The event id the handler derives for a PDU; the call site at
src/server_server.rs line 354 passes the fixed `RoomVersionId::Version6`. -/
def txnEventId (db : TxnDb) (pdu : InPdu) : String :=
  (process_incoming_pdu db.ref_hash pdu RoomVersionId.version6).1

/-- The sender server's state at the event, as assembled at
src/server_server.rs lines 392-406: each returned PDU (state plus
auth chain) is keyed by its slot and mapped to its freshly derived
event id; the derivation again passes the fixed
`RoomVersionId::Version6` (line 397). -/
def txnTheirState (db : TxnDb) (pdu : InPdu) (event_id : String) : SMap String :=
  (db.get_room_state pdu.room_id event_id).foldl
    (fun m p =>
      alInsert m (p.kind, p.state_key) (process_incoming_pdu db.ref_hash p RoomVersionId.version6).1)
    []

/-- The state-resolution call at src/server_server.rs lines 408-434:
our current state and the sender's state are the two candidate sets,
the auxiliary map holds the events of both, and the version argument
is the fixed `RoomVersionId::Version5` (line 410). -/
def txnResolve (db : TxnDb) (pdu : InPdu) : Except String (SMap String) :=
  let event_id := txnEventId db pdu
  let our := db.room_state_full pdu.room_id
  let their := txnTheirState db pdu event_id
  db.resolve pdu.room_id RoomVersionId.version5 [our, their]
    (our.map Prod.snd ++ their.map Prod.snd)

/-- Observable outcome of the transaction handler: the per-PDU
response map (`resolved_map` in the source) and the event ids passed
to `append_pdu`, in order. -/
structure TxnOutcome where
  resolved_map : List (String × Except String Unit)
  appended : List String
deriving Repr

/-- The one handler-level error: the early `return
Err(Error::BadRequest(Forbidden, ..))` at src/server_server.rs
lines 364-367. -/
inductive TxnError
  | forbidden
deriving DecidableEq, Repr

/-- The loop body of `send_transaction_message_route`
(src/server_server.rs lines 352-453), processing the remaining PDUs
against the accumulated outcome.  A non-state PDU whose sender is not
joined makes the whole handler return `Forbidden`; otherwise it is
appended and recorded `Ok`.  A state PDU is resolved against the
sender's state: if the resolved map contains the derived event id
among its values, the PDU is recorded `Ok` and appended only when the
room exists locally (and silently skipped otherwise); if the id is
absent the map records an authentication failure; a resolution error
is recorded verbatim. -/
def sendTxnGo (db : TxnDb) : List InPdu → TxnOutcome → Except TxnError TxnOutcome
  | [], acc => .ok acc
  | pdu :: rest, acc =>
    let event_id := txnEventId db pdu
    if pdu.state_key.isNone then
      if db.is_joined pdu.sender pdu.room_id then
        sendTxnGo db rest
          { resolved_map := alInsert acc.resolved_map event_id (.ok ())
            appended := acc.appended ++ [event_id] }
      else
        .error .forbidden
    else
      match txnResolve db pdu with
      | .ok resolved =>
        if resolved.any (fun kv => kv.2 == event_id) then
          if db.exists_room pdu.room_id then
            sendTxnGo db rest
              { resolved_map := alInsert acc.resolved_map event_id (.ok ())
                appended := acc.appended ++ [event_id] }
          else
            sendTxnGo db rest acc
        else
          sendTxnGo db rest
            { acc with
              resolved_map :=
                alInsert acc.resolved_map event_id (.error "This event failed authentication") }
      | .error e =>
        sendTxnGo db rest { acc with resolved_map := alInsert acc.resolved_map event_id (.error e) }

/-- Embedding of `send_transaction_message_route`
(src/server_server.rs lines 346-456): fold the transaction's PDUs
through `sendTxnGo` starting from the empty outcome. -/
def send_transaction_message_route (db : TxnDb) (pdus : List InPdu) :
    Except TxnError TxnOutcome :=
  sendTxnGo db pdus { resolved_map := [], appended := [] }

/-! ## Resolver and state cache (src/federation.rs) -/

/-- State-group ids are u64 counters (src/database/rooms/state.rs,
`type StateId = u64`). -/
abbrev StateId := Nat

/-- Embedding of `StateGroupId` (src/database/rooms/state.rs lines
26-30). -/
inductive StateGroupId
  | cached (s : String)
  | group (g : StateId)
deriving DecidableEq, Repr

/-- Embedding of `StateCacheEntry` (src/database/rooms/state.rs lines
73-93). -/
structure StateCacheEntry where
  state : SMap String
  state_group : Option StateId
  state_id : StateGroupId
  prev_group : Option StateId
  delta_ids : Option (SMap String)
deriving DecidableEq, Repr

/-- Embedding of `StateCacheEntry::new` (src/database/rooms/state.rs
lines 96-113); `genId` stands for the random string produced by
`gen_state_id` when no state group is given. -/
def StateCacheEntry.new (genId : String) (state : SMap String)
    (state_group prev_group : Option StateId) (delta_ids : Option (SMap String)) :
    StateCacheEntry :=
  { state := state
    state_group := state_group
    state_id :=
      match state_group with
      | some id => .group id
      | none => .cached genId
    prev_group := prev_group
    delta_ids := delta_ids }

/-- Errors of the resolver pipeline.  `panicTodo` marks a reached
`todo!()` (the unimplemented `room_version` binding in
`resolve_events_with_db`), which diverges in the source. -/
inductive RErr
  | panicTodo
  | dbErr (msg : String)
deriving DecidableEq, Repr

/-- Pairwise set equality of two state maps by mutual containment,
embedding the `BTreeSet` comparison of entry pairs in
`make_state_cache` (src/federation.rs lines 345-346). -/
def eqSetPairs (a b : SMap String) : Bool :=
  a.all (fun kv => b.contains kv) && b.all (fun kv => a.contains kv)

/-- First loop of `make_state_cache` (src/federation.rs lines
340-349): find the first input group whose map equals the resolved
map (same length, same set of entry pairs). -/
def findEqualGroup (new_state : SMap String) : List (StateId × SMap String) → Option StateId
  | [] => none
  | (sg, st) :: rest =>
    if new_state.length == st.length && eqSetPairs new_state st then some sg
    else findEqualGroup new_state rest

/-- The `n_delta` of src/federation.rs lines 356-360: the entries of
the resolved map whose value differs from (or is absent in) the given
old group map.  This is a one-way delta. -/
def oneWayDelta (new_state old_state : SMap String) : SMap String :=
  new_state.filter (fun kv => !(alLookup old_state kv.1 == some kv.2))

/-- Accumulator of the second loop of `make_state_cache`
(src/federation.rs lines 351-372). -/
structure PrevAcc where
  prev_group : Option StateId
  delta_ids : Option (SMap String)
  delta_len : Nat
deriving DecidableEq, Repr

/-- One iteration of the second loop of `make_state_cache`: the
candidate replaces the accumulator exactly when its one-way delta is
strictly larger than the best so far (src/federation.rs line 366). -/
def pickPrevStep (new_state : SMap String) (acc : PrevAcc) (g : StateId × SMap String) :
    PrevAcc :=
  let nd := oneWayDelta new_state g.2
  if nd.length > acc.delta_len then
    { prev_group := some g.1, delta_ids := some nd, delta_len := nd.length }
  else acc

/-- Embedding of `make_state_cache` (src/federation.rs lines
334-375). -/
def make_state_cache (genId : String) (new_state : SMap String)
    (state_groups : List (StateId × SMap String)) : StateCacheEntry :=
  match findEqualGroup new_state state_groups with
  | some sg => StateCacheEntry.new genId new_state (some sg) none none
  | none =>
    let acc := state_groups.foldl (pickPrevStep new_state) ⟨none, none, 0⟩
    StateCacheEntry.new genId new_state none acc.prev_group acc.delta_ids

/-- Inner loop of the conflict scan in `resolve_state_groups`
(src/federation.rs lines 271-277): insert each entry of one group's
map into the accumulated state, breaking with a conflict as soon as a
key is already present (whatever its value). -/
def insertAllBreak : SMap String → SMap String → SMap String × Bool
  | [], acc => (acc, false)
  | (k, v) :: rest, acc =>
    if alContains acc k then (acc, true)
    else insertAllBreak rest (alInsert acc k v)

/-- Outer loop of the conflict scan (src/federation.rs lines
270-281): fold the groups' maps in order, stopping at the first
conflict. -/
def buildUnion : List (StateId × SMap String) → SMap String → SMap String × Bool
  | [], acc => (acc, false)
  | (_, st) :: rest, acc =>
    match insertAllBreak st acc with
    | (acc', true) => (acc', true)
    | (acc', false) => buildUnion rest acc'

/-- Embedding of `resolve_events_with_db` (src/federation.rs lines
315-332): its first statement is `let room_version = todo!()`, so
every call diverges; modelled as the distinguished `panicTodo`
error. -/
def resolve_events_with_db (_room_id : String) (_state_set : List (SMap String)) :
    Except RErr (SMap String) :=
  .error .panicTodo

/-- Embedding of `resolve_state_groups` (src/federation.rs lines
262-291): scan the groups for a conflicting slot; on conflict run the
full resolution (which diverges in this source), otherwise keep the
accumulated union; then build the cache entry. -/
def resolve_state_groups (genId : String) (room_id : String)
    (state_groups : List (StateId × SMap String)) (_event_map : Option (SMap String)) :
    Except RErr StateCacheEntry :=
  match buildUnion state_groups [] with
  | (_, true) =>
    match resolve_events_with_db room_id (state_groups.map Prod.snd) with
    | .error e => .error e
    | .ok new_state => .ok (make_state_cache genId new_state state_groups)
  | (new_state, false) => .ok (make_state_cache genId new_state state_groups)

/-- Oracle view of the `RoomState` database handle as used by
`resolve_state_group_for_events` and `get_state_group_delta`. -/
structure StateDb where
  current_state_id : Option StateId
  current_state : Except RErr (SMap String)
  new_state_group_id : Except RErr StateId
  prev_state_id : StateId → Option StateId
  get_statemap : StateId → Except RErr (SMap String)

/-- Symmetric difference of two state maps as entry-pair sets,
embedding `BTreeSet::symmetric_difference` collected back into a map
(src/federation.rs lines 302-307), up to entry order. -/
def symmDiffPairs (a b : SMap String) : SMap String :=
  a.filter (fun kv => !(b.contains kv)) ++ b.filter (fun kv => !(a.contains kv))

/-- Embedding of `get_state_group_delta` (src/federation.rs lines
293-313). -/
def get_state_group_delta (db : StateDb) (current_state : SMap String) (state_id : StateId) :
    Except RErr (Option StateId × Option (SMap String)) :=
  match db.prev_state_id state_id with
  | some prev =>
    match db.get_statemap prev with
    | .error e => .error e
    | .ok prev_state => .ok (some prev, some (symmDiffPairs prev_state current_state))
  | none => .ok (none, none)

/-- Embedding of `resolve_state_group_for_events` (src/federation.rs
lines 216-260).  `state_group_ids` is the result of
`get_state_group_ids` for the previous events, in ascending group-id
order; `genId1`/`genId2` stand for the random cache ids generated on
the paths that build an entry without a state group.  In the branch
for two or more groups the source looks up the current state id and
state, allocates a fresh group id whose result is ignored, computes a
delta that is likewise discarded, and finally delegates to
`resolve_state_groups` with no event map. -/
def resolve_state_group_for_events (genId1 genId2 : String) (db : StateDb)
    (room_id : String) (state_group_ids : List (StateId × SMap String)) :
    Except RErr StateCacheEntry :=
  match state_group_ids with
  | [] => .ok (StateCacheEntry.new genId1 [] none none none)
  | [(name, state_map)] =>
    .ok
      { state_id := .group name
        state := state_map
        state_group := some name
        prev_group := none
        delta_ids := none }
  | sgids =>
    match db.current_state_id with
    | none => .error (.dbErr "No state group ID found in db.")
    | some state_id =>
      match db.current_state with
      | .error e => .error e
      | .ok state =>
        let _state_group := db.new_state_group_id.toOption
        match get_state_group_delta db state state_id with
        | .error e => .error e
        | .ok _prev_and_delta => resolve_state_groups genId2 room_id sgids none

/-! ## Concrete instances used by counterexamples and witnesses -/

/-- A short tag naming a room version, used to build
version-sensitive reference-hash oracles. -/
def versionTag : RoomVersionId → String
  | .version1 => "v1"
  | .version2 => "v2"
  | .version3 => "v3"
  | .version4 => "v4"
  | .version5 => "v5"
  | .version6 => "v6"

/-- A version-sensitive reference-hash oracle: the hash records both
the body and the version it was computed at. -/
def taggedHash (b : Nat) (v : RoomVersionId) : String :=
  toString b ++ versionTag v

/-- A non-state (message) PDU. -/
def pduMsg : InPdu :=
  { sender := "@alice:remote", room_id := "!r:remote", kind := "m.room.message"
    state_key := none, body := 1 }

/-- A second non-state PDU of the same transaction. -/
def pduMsg2 : InPdu :=
  { pduMsg with body := 2 }

/-- A state PDU (topic event). -/
def pduState : InPdu :=
  { sender := "@alice:remote", room_id := "!r:remote", kind := "m.room.topic"
    state_key := some "", body := 3 }

/-- Baseline transaction oracle: nobody is joined, rooms exist, all
auxiliary lookups are empty and resolution yields the empty state. -/
def txnDbNoJoin : TxnDb :=
  { is_joined := fun _ _ => false
    exists_room := fun _ => true
    room_state_full := fun _ => []
    get_room_state := fun _ _ => []
    ref_hash := taggedHash
    resolve := fun _ _ _ _ => .ok []
    room_version := fun _ => .version6 }

/-- Oracle for which resolution places the state PDU's event id in
its own slot but the room is unknown locally. -/
def txnDbSlotNoRoom : TxnDb :=
  { txnDbNoJoin with
    exists_room := fun _ => false
    resolve := fun _ _ _ _ => .ok [(("m.room.topic", some ""), "$3v6")] }

/-- Oracle for which resolution places the state PDU's event id under
a different slot than the event's own. -/
def txnDbWrongSlot : TxnDb :=
  { txnDbNoJoin with
    resolve := fun _ _ _ _ => .ok [(("m.room.name", some ""), "$3v6")] }

/-- Oracle whose stored per-room version is 1 while everyone is
joined, used to exhibit the fixed-version divergence. -/
def txnDbV1 : TxnDb :=
  { txnDbNoJoin with
    is_joined := fun _ _ => true
    room_version := fun _ => .version1 }

/-- An SRV oracle that always finds a target. -/
def srvAlways : String → Option String :=
  fun _ => some "srv.example.org."

/-- An SRV oracle that never finds a target. -/
def srvNever : String → Option String :=
  fun _ => none

/-- A signatures object carrying two signing keys of one server. -/
def sigsTwo : List (String × List (String × String)) :=
  [("example.org", [("ed25519:a", "sigA"), ("ed25519:b", "sigB")])]

/-- Resolved map and state groups exhibiting the largest-delta choice
of `make_state_cache`: slot a. -/
def slotA : SlotKey := ("m.room.name", some "")

/-- Slot b for the `make_state_cache` instances. -/
def slotB : SlotKey := ("m.room.topic", some "")

/-- Concrete resolved state for the `make_state_cache` counterexample. -/
def cexNew : SMap String := [(slotA, "$x"), (slotB, "$y")]

/-- Input groups: group 1 overlaps `cexNew` in slot a, group 2 not at
all. -/
def cexGroups : List (StateId × SMap String) := [(1, [(slotA, "$x")]), (2, [])]

/-- A resolved state equal in one slot to its single input group,
whose map carries an extra slot. -/
def cexNew2 : SMap String := [(slotA, "$x")]

/-- The single input group for the one-way-delta instance. -/
def cexGroups2 : List (StateId × SMap String) := [(7, [(slotB, "$z")])]

/-- A single-slot state map shared by two state groups, for the
agreeing-groups conflict instance. -/
def cexAgree : SMap String := [(slotA, "$x")]

/-- An eight-byte big-endian key encoding 1. -/
def sgKey1 : Bytes := [0, 0, 0, 0, 0, 0, 0, 1]

/-- An eight-byte big-endian key encoding 2. -/
def sgKey2 : Bytes := [0, 0, 0, 0, 0, 0, 0, 2]

/-- A sixteen-byte range value as stored under a state-group key. -/
def sgRange : Bytes := [0, 0, 0, 0, 0, 0, 0, 0, 0, 0, 0, 0, 0, 0, 0, 9]

/-- A two-entry `stategroupid_eventnumidrange` tree. -/
def sgTree : SledTree := [(sgKey1, sgRange), (sgKey2, sgRange)]

/-- All slot keys of a collection of state groups, in iteration
order. -/
def allSlotKeys (sgs : List (StateId × SMap String)) : List SlotKey :=
  sgs.flatMap (fun p => keysOf p.2)

/-- Invariant of the second loop of `make_state_cache`: after the
groups in `seen` were processed, either nothing is picked yet and
every seen group has an empty one-way delta, or the accumulator holds
a seen group together with its one-way delta, of maximal nonzero
length among the seen ones. -/
def AccOk (ns : SMap String) (seen : List (StateId × SMap String)) (acc : PrevAcc) : Prop :=
  (acc.prev_group = none ∧ acc.delta_ids = none ∧ acc.delta_len = 0 ∧
    ∀ p ∈ seen, (oneWayDelta ns p.2).length = 0) ∨
  (∃ pg st, (pg, st) ∈ seen ∧ acc.prev_group = some pg ∧
    acc.delta_ids = some (oneWayDelta ns st) ∧ acc.delta_len = (oneWayDelta ns st).length ∧
    acc.delta_len ≠ 0 ∧ ∀ p ∈ seen, (oneWayDelta ns p.2).length ≤ acc.delta_len)

/-- A single input group whose map equals `cexNew` as a set of
entries, stored in a different order. -/
def cexGroupsEq : List (StateId × SMap String) := [(3, [(slotB, "$y"), (slotA, "$x")])]

/-! ## Helper lemmas about the map embedding -/

/-- Lookup misses exactly the keys that are absent. -/
theorem alLookup_eq_none_iff {κ α : Type} [DecidableEq κ] (m : List (κ × α)) (k : κ) :
    alLookup m k = none ↔ k ∉ keysOf m := by
  induction m with
  | nil => simp [alLookup, keysOf]
  | cons p rest ih =>
    rcases p with ⟨k', v⟩
    by_cases h : k = k' <;> simp [alLookup, keysOf, h, ih]

/-- On a map whose keys are unique, lookup finds every stored
binding. -/
theorem alLookup_mem_of_nodup {κ α : Type} [DecidableEq κ] (m : List (κ × α)) (k : κ) (v : α)
    (hnd : (keysOf m).Nodup) (hm : (k, v) ∈ m) : alLookup m k = some v := by
  induction m with
  | nil => cases hm
  | cons p rest ih =>
    rcases p with ⟨k', v'⟩
    rcases List.mem_cons.mp hm with heq | hmem
    · cases heq
      simp [alLookup]
    · have hnd2 : (k' :: keysOf rest).Nodup := hnd
      have hk' : k' ∉ keysOf rest := (List.nodup_cons.mp hnd2).1
      have hne : ¬ k = k' := by
        rintro rfl
        exact hk' (List.mem_map.mpr ⟨(k, v), hmem, rfl⟩)
      have hlook : alLookup rest k = some v := ih (List.nodup_cons.mp hnd2).2 hmem
      simp [alLookup, hne, hlook]

/-- Inserting a fresh key appends the binding at the end. -/
theorem alInsert_fresh {κ α : Type} [DecidableEq κ] (m : List (κ × α)) (k : κ) (v : α)
    (h : k ∉ keysOf m) : alInsert m k v = m ++ [(k, v)] := by
  induction m with
  | nil => rfl
  | cons p rest ih =>
    rcases p with ⟨k', v'⟩
    have hne : ¬ k = k' := by
      rintro rfl
      exact h (by simp [keysOf])
    have hrest : k ∉ keysOf rest := by
      intro hk
      exact h (by simp [keysOf] at hk ⊢; exact Or.inr hk)
    simp [alInsert, hne, ih hrest]

/-- The header fold ignores its accumulator, so from any starting
value it ends with the header of the last signature, if any. -/
theorem authHeadersAux (own : String) :
    ∀ (l : List (String × String)) (init : List String),
      l.foldl (fun _acc ks => [fmtAuth own ks.1 ks.2]) init =
        (l.getLast?.map (fun ks => [fmtAuth own ks.1 ks.2])).getD init
  | [], _ => rfl
  | [_], _ => rfl
  | a :: b :: t, init => by
    rw [List.foldl_cons]
    rw [authHeadersAux own (b :: t) [fmtAuth own a.1 a.2]]
    rw [List.getLast?_cons_cons, List.getLast?_cons]
    simp

/-- Replacement-style header insertion keeps exactly the header of
the last signature. -/
theorem authHeadersOf_eq_getLast (own : String)
    (sigs : List (String × List (String × String))) :
    authHeadersOf own sigs =
      (((sigs.flatMap Prod.snd).getLast?).map
        (fun ks => [fmtAuth own ks.1 ks.2])).getD [] :=
  authHeadersAux own (sigs.flatMap Prod.snd) []

/-! ## Claim C3 -/

/-- C3 counterexample: the claim that an explicit port in the
delegated name suppresses the SRV lookup, and that without delegation
an SRV lookup is still performed, is false.  With well-known
delegation to `matrix.example.com:8448` (explicit port) the code
still queries SRV and uses its target; without delegation the code
never queries SRV even though a record exists, and appends `:8448`
directly. -/
theorem C3_destination_resolution_counterexample :
    (send_request "own.example" (some "matrix.example.com:8448") srvAlways []
        "example.com").actualDestination = "https://srv.example.org" ∧
    ¬ ((send_request "own.example" (some "matrix.example.com:8448") srvAlways []
        "example.com").actualDestination = "https://matrix.example.com:8448") ∧
    strContainsChar "matrix.example.com:8448" ':' = true ∧
    (send_request "own.example" (some "matrix.example.com:8448") srvAlways []
        "example.com").srvQueries = ["_matrix._tcp.matrix.example.com:8448"] ∧
    (send_request "own.example" none srvAlways [] "example.com").srvQueries = [] ∧
    srvAlways "_matrix._tcp.example.com" = some "srv.example.org." ∧
    (send_request "own.example" none srvAlways [] "example.com").actualDestination =
      "https://example.com:8448" :=
  ⟨rfl, by decide, by decide, rfl, rfl, rfl, by decide⟩

/-- C3 amended: the delegated name is the `m.server` value if the
well-known lookup succeeded and the original server name otherwise.
When delegation occurred an SRV lookup on `_matrix._tcp.{delegated}`
is always performed, even if the delegated name carries an explicit
port; a successful lookup's first target (trailing dots stripped) is
used, and on failure `:8448` is appended unless the delegated name
already has a port.  When no delegation occurred no SRV lookup
happens and `:8448` is appended unless the name already has a
port. -/
theorem C3_destination_resolution_amended (own d dest : String)
    (srv : String → Option String) (sigs : List (String × List (String × String))) :
    (send_request own (some d) srv sigs dest).srvQueries = ["_matrix._tcp." ++ d] ∧
    (send_request own none srv sigs dest).srvQueries = [] ∧
    (∀ t, srv ("_matrix._tcp." ++ d) = some t →
      (send_request own (some d) srv sigs dest).actualDestination =
        "https://" ++ trimTrailingDots t) ∧
    (srv ("_matrix._tcp." ++ d) = none →
      (send_request own (some d) srv sigs dest).actualDestination =
        "https://" ++ (if strContainsChar d ':' then d else d ++ ":8448")) ∧
    (send_request own none srv sigs dest).actualDestination =
      "https://" ++ (if strContainsChar dest ':' then dest else dest ++ ":8448") := by
  refine ⟨?_, rfl, ?_, ?_, rfl⟩
  · cases h : srv ("_matrix._tcp." ++ d) <;> simp [send_request, h]
  · intro t ht
    simp [send_request, ht]
  · intro h
    simp [send_request, h]

/-- C3 witness: the amended statement applied to concrete inputs
covering both the SRV-failure and the SRV-success paths under
delegation. -/
theorem C3_destination_resolution_witness :
    (send_request "own.example" (some "matrix.example.com") srvNever []
        "example.com").actualDestination = "https://matrix.example.com:8448" ∧
    (send_request "own.example" (some "m.example.com") srvAlways []
        "example.com").actualDestination = "https://srv.example.org" :=
  ⟨((C3_destination_resolution_amended "own.example" "matrix.example.com" "example.com"
      srvNever []).2.2.2.1 rfl).trans (by decide),
   ((C3_destination_resolution_amended "own.example" "m.example.com" "example.com"
      srvAlways []).2.2.1 "srv.example.org." rfl).trans (by decide)⟩

/-! ## Claim C4 -/

/-- C4 counterexample: with well-known delegation to
`matrix.example.com:8448` whose SRV lookup fails, the `Host` header
is left unset (the claim requires it to be the delegated name), and
the signed JSON's `destination` is the original server name
`example.com`, not the delegated name. -/
theorem C4_host_destination_counterexample :
    (send_request "own.example" (some "matrix.example.com:8448") srvNever []
        "example.com").hostHeader = none ∧
    (send_request "own.example" (some "matrix.example.com:8448") srvNever []
        "example.com").jsonDestination = "example.com" ∧
    ¬ ("example.com" = "matrix.example.com:8448") :=
  ⟨rfl, rfl, by decide⟩

/-- C4 amended: the signed request JSON's `destination` field always
equals the original server name, delegation or not; the `Host` header
is set to the delegated name exactly when delegation occurred and the
subsequent SRV lookup succeeded, and is left unset otherwise. -/
theorem C4_host_destination_amended (own d dest : String)
    (srv : String → Option String) (sigs : List (String × List (String × String))) :
    (∀ wk, (send_request own wk srv sigs dest).jsonDestination = dest) ∧
    (∀ t, srv ("_matrix._tcp." ++ d) = some t →
      (send_request own (some d) srv sigs dest).hostHeader = some d) ∧
    (srv ("_matrix._tcp." ++ d) = none →
      (send_request own (some d) srv sigs dest).hostHeader = none) ∧
    (send_request own none srv sigs dest).hostHeader = none := by
  refine ⟨?_, ?_, ?_, rfl⟩
  · intro wk
    cases wk with
    | none => rfl
    | some d' => cases h : srv ("_matrix._tcp." ++ d') <;> simp [send_request, h]
  · intro t ht
    simp [send_request, ht]
  · intro h
    simp [send_request, h]

/-- C4 witness: the amended statement applied to concrete inputs for
both SRV outcomes under delegation. -/
theorem C4_host_destination_witness :
    (send_request "own.example" (some "m.example.com") srvAlways []
        "example.com").hostHeader = some "m.example.com" ∧
    (send_request "own.example" (some "m.example.com") srvNever []
        "example.com").hostHeader = none ∧
    (send_request "own.example" (some "m.example.com") srvAlways []
        "example.com").jsonDestination = "example.com" :=
  ⟨(C4_host_destination_amended "own.example" "m.example.com" "example.com"
      srvAlways []).2.1 "srv.example.org." rfl,
   (C4_host_destination_amended "own.example" "m.example.com" "example.com"
      srvNever []).2.2.1 rfl,
   (C4_host_destination_amended "own.example" "m.example.com" "example.com"
      srvAlways []).1 (some "m.example.com")⟩

/-! ## Claim C5 -/

/-- C5 counterexample: a signed request whose JSON carries two
signatures ends up with a single `Authorization` header (the one of
the last signature), not two, because each header insertion replaces
the previous value. -/
theorem C5_auth_headers_counterexample :
    (send_request "own.example" (some "m.example.com") srvAlways sigsTwo
        "example.com").authHeaders = [fmtAuth "own.example" "ed25519:b" "sigB"] ∧
    (send_request "own.example" (some "m.example.com") srvAlways sigsTwo
        "example.com").authHeaders.length = 1 ∧
    (sigsTwo.flatMap Prod.snd).length = 2 ∧
    ¬ ((send_request "own.example" (some "m.example.com") srvAlways sigsTwo
        "example.com").authHeaders.length = 2) :=
  ⟨rfl, rfl, rfl, by decide⟩

/-- C5 amended: at most one `Authorization` header is attached.  The
headers are inserted with replacement, so the final request carries
exactly the header of the last signature of the signed JSON (and none
when the JSON carries no signature); with a single signing key this
is the specified header. -/
theorem C5_auth_headers_amended (own dest : String) (wk : Option String)
    (srv : String → Option String) (sigs : List (String × List (String × String))) :
    (send_request own wk srv sigs dest).authHeaders = authHeadersOf own sigs ∧
    (authHeadersOf own sigs).length ≤ 1 ∧
    (∀ ks, (sigs.flatMap Prod.snd).getLast? = some ks →
      authHeadersOf own sigs = [fmtAuth own ks.1 ks.2]) ∧
    ((sigs.flatMap Prod.snd).getLast? = none → authHeadersOf own sigs = []) := by
  refine ⟨?_, ?_, ?_, ?_⟩
  · cases wk with
    | none => rfl
    | some d' => cases h : srv ("_matrix._tcp." ++ d') <;> simp [send_request, h]
  · rw [authHeadersOf_eq_getLast]
    cases (sigs.flatMap Prod.snd).getLast? <;> simp
  · intro ks h
    rw [authHeadersOf_eq_getLast, h]
    rfl
  · intro h
    rw [authHeadersOf_eq_getLast, h]
    rfl

/-- C5 witness: the amended statement applied to the two-signature
instance. -/
theorem C5_auth_headers_witness :
    authHeadersOf "own.example" sigsTwo = [fmtAuth "own.example" "ed25519:b" "sigB"] :=
  (C5_auth_headers_amended "own.example" "example.com" none srvNever
    sigsTwo).2.2.1 ("ed25519:b", "sigB") (by decide)

/-! ## Claim C6 -/

/-- C6: `resolve_state_group_for_events` satisfies the resolver's
edge cases.  An empty set of located state groups yields the empty
state map with no state group, previous group or delta; a single
located group is returned directly, with its map as the state, its ID
as the entry's `state_group`, and no resolution invoked (the result
is independent of every database oracle, and resolution in this
source diverges rather than produce a value). -/
theorem C6_resolver_edge_cases (g1 g2 : String) (db : StateDb) (room : String)
    (n : StateId) (m : SMap String) :
    resolve_state_group_for_events g1 g2 db room [] =
      .ok { state := [], state_group := none, state_id := .cached g1
            prev_group := none, delta_ids := none } ∧
    resolve_state_group_for_events g1 g2 db room [(n, m)] =
      .ok { state := m, state_group := some n, state_id := .group n
            prev_group := none, delta_ids := none } :=
  ⟨rfl, rfl⟩

/-! ## Claim C10 -/

/-- C10: `prev_state_id` is total.  For an ID absent from the tree it
returns `none`; for the first stored group (where the source's
`idx - 2` underflows and, under the wrapping usize semantics of a
release build, becomes an astronomically large skip) it returns
`none`; likewise for the second stored group.  The length bounds
reflect that a sled tree, being indexed by usize positions, has fewer
than 2 ^ 64 - 2 entries. -/
theorem C10_prev_state_id_total :
    (∀ (tree : SledTree) (current : Nat),
      (∀ kv ∈ tree, ¬ (u64_from_bytes kv.1 = some current)) →
      prev_state_id tree current = none) ∧
    (∀ (k v : Bytes) (rest : SledTree) (current : Nat),
      u64_from_bytes k = some current →
      rest.length ≤ 2 ^ 64 - 3 →
      prev_state_id ((k, v) :: rest) current = none) ∧
    (∀ (k1 v1 k2 v2 : Bytes) (rest : SledTree) (current : Nat),
      ¬ (u64_from_bytes k1 = some current) →
      u64_from_bytes k2 = some current →
      rest.length ≤ 2 ^ 64 - 3 →
      prev_state_id ((k1, v1) :: (k2, v2) :: rest) current = none) := by
  refine ⟨?_, ?_, ?_⟩
  · intro tree current h
    have hidx : tree.findIdx? (fun kv => u64_from_bytes kv.1 == some current) = none := by
      rw [List.findIdx?_eq_none_iff]
      intro kv hkv
      simpa using h kv hkv
    simp [prev_state_id, hidx]
  · intro k v rest current hk hlen
    have hidx :
        ((k, v) :: rest).findIdx? (fun kv => u64_from_bytes kv.1 == some current) = some 0 := by
      rw [List.findIdx?_cons]
      simp [hk]
    have hmod : (0 + (2 ^ 64 - 2)) % 2 ^ 64 = 2 ^ 64 - 2 := by
      rw [Nat.zero_add]
      exact Nat.mod_eq_of_lt (by norm_num)
    have hdrop : ((k, v) :: rest).drop (2 ^ 64 - 2) = [] := by
      apply List.drop_eq_nil_of_le
      have h1 : ((k, v) :: rest).length = rest.length + 1 := by simp
      rw [h1]
      have h2 : rest.length + 1 ≤ (2 ^ 64 - 3) + 1 := Nat.succ_le_succ hlen
      exact h2.trans (by norm_num)
    simp [prev_state_id, hidx, hmod, hdrop]
    intro a b hab
    have hnone : rest[(18446744073709551613 : Nat)]? = none :=
      List.getElem?_eq_none (le_trans hlen (by norm_num))
    simp [hnone] at hab
  · intro k1 v1 k2 v2 rest current hk1 hk2 hlen
    have hidx :
        ((k1, v1) :: (k2, v2) :: rest).findIdx?
          (fun kv => u64_from_bytes kv.1 == some current) = some 1 := by
      rw [List.findIdx?_cons]
      have h1 : (u64_from_bytes k1 == some current) = false := by
        simpa using hk1
      rw [h1]
      simp only [Bool.false_eq_true, if_false]
      rw [List.findIdx?_cons]
      simp [hk2]
    have hmod : (1 + (2 ^ 64 - 2)) % 2 ^ 64 = 2 ^ 64 - 1 := by
      have h1 : 1 + (2 ^ 64 - 2) = 2 ^ 64 - 1 := by norm_num
      rw [h1]
      exact Nat.mod_eq_of_lt (by norm_num)
    have hdrop : ((k1, v1) :: (k2, v2) :: rest).drop (2 ^ 64 - 1) = [] := by
      apply List.drop_eq_nil_of_le
      have h1 : ((k1, v1) :: (k2, v2) :: rest).length = rest.length + 2 := by simp
      rw [h1]
      have h2 : rest.length + 2 ≤ (2 ^ 64 - 3) + 2 := by omega
      exact h2.trans (by norm_num)
    simp [prev_state_id, hidx, hmod, hdrop]
    intro a b hab
    have hnone : rest[(18446744073709551613 : Nat)]? = none :=
      List.getElem?_eq_none (le_trans hlen (by norm_num))
    simp [hnone] at hab

/-- C10 witness: the theorem applied to a concrete two-entry tree,
covering the first group, the second group and an absent ID. -/
theorem C10_prev_state_id_witness :
    prev_state_id sgTree 1 = none ∧
    prev_state_id sgTree 2 = none ∧
    prev_state_id sgTree 77 = none :=
  ⟨C10_prev_state_id_total.2.1 sgKey1 sgRange [(sgKey2, sgRange)] 1 (by decide) (by decide),
   C10_prev_state_id_total.2.2 sgKey1 sgRange sgKey2 sgRange [] 2 (by decide) (by decide)
     (by decide),
   C10_prev_state_id_total.1 sgTree 77 (by decide)⟩

/-! ## Claim C9 -/

/-- The transaction handler never consults the stored per-room
version: replacing that oracle changes nothing in its behaviour. -/
theorem sendTxnGo_room_version_irrel (db : TxnDb) (rv : String → RoomVersionId) :
    ∀ (pdus : List InPdu) (acc : TxnOutcome),
      sendTxnGo { db with room_version := rv } pdus acc = sendTxnGo db pdus acc
  | [], _ => rfl
  | pdu :: rest, acc => by
    have ihok : ∀ acc2, sendTxnGo { db with room_version := rv } rest acc2 =
        sendTxnGo db rest acc2 :=
      fun acc2 => sendTxnGo_room_version_irrel db rv rest acc2
    have h1 : txnEventId { db with room_version := rv } pdu = txnEventId db pdu := rfl
    have h2 : txnResolve { db with room_version := rv } pdu = txnResolve db pdu := rfl
    have h3 : TxnDb.is_joined { db with room_version := rv } = db.is_joined := rfl
    have h4 : TxnDb.exists_room { db with room_version := rv } = db.exists_room := rfl
    simp only [sendTxnGo, h1, h2, h3, h4, ihok]

/-- C9: the inbound pipeline uses fixed room versions instead of the
room's stored one: the handler's behaviour is invariant under
arbitrary changes of the per-room version oracle; the event id it
derives always comes from hashing at `Version6` whatever the room's
version is; and on a concrete room of version 1 with a
version-sensitive hash the recorded event id is the `Version6` hash,
which differs from the version-1 hash the claim requires. -/
theorem C9_fixed_room_version :
    (∀ (db : TxnDb) (rv : String → RoomVersionId) (pdus : List InPdu),
      send_transaction_message_route { db with room_version := rv } pdus =
        send_transaction_message_route db pdus) ∧
    (∀ (db : TxnDb) (pdu : InPdu),
      txnEventId db pdu = "$" ++ db.ref_hash pdu.body RoomVersionId.version6) ∧
    txnDbV1.room_version pduMsg.room_id = RoomVersionId.version1 ∧
    send_transaction_message_route txnDbV1 [pduMsg] =
      .ok { resolved_map := [("$" ++ taggedHash pduMsg.body RoomVersionId.version6, .ok ())]
            appended := ["$" ++ taggedHash pduMsg.body RoomVersionId.version6] } ∧
    ¬ (taggedHash pduMsg.body RoomVersionId.version1 =
        taggedHash pduMsg.body RoomVersionId.version6) := by
  refine ⟨?_, fun _ _ => rfl, rfl, rfl, by decide⟩
  intro db rv pdus
  unfold send_transaction_message_route
  exact sendTxnGo_room_version_irrel db rv pdus { resolved_map := [], appended := [] }

/-! ## Claim C1 -/

/-- C1 counterexample: a transaction of two non-state PDUs whose
sender is not joined does not produce a per-PDU result map at all;
the handler aborts with a transaction-level `Forbidden` error, so
neither PDU receives an entry and the second PDU is never
processed. -/
theorem C1_per_pdu_counterexample :
    send_transaction_message_route txnDbNoJoin [pduMsg, pduMsg2] = .error .forbidden ∧
    pduMsg.state_key = none ∧
    txnDbNoJoin.is_joined pduMsg.sender pduMsg.room_id = false :=
  ⟨rfl, rfl, rfl⟩

/-- C1 amended: per-PDU error collection holds for state PDUs (a
resolution error is recorded in the map for that event id and the
remaining PDUs are still processed), and a joined sender's non-state
PDU is appended and recorded `Ok`; but a non-state PDU whose sender
is not joined aborts the entire handler with a `Forbidden` error, so
no per-PDU entry is recorded for it and the remaining PDUs of the
transaction are not processed. -/
theorem C1_transaction_abort_amended (db : TxnDb) (pdu : InPdu) (rest : List InPdu)
    (acc : TxnOutcome) :
    (pdu.state_key = none → db.is_joined pdu.sender pdu.room_id = false →
      sendTxnGo db (pdu :: rest) acc = .error .forbidden) ∧
    (pdu.state_key = none → db.is_joined pdu.sender pdu.room_id = true →
      sendTxnGo db (pdu :: rest) acc = sendTxnGo db rest
        { resolved_map := alInsert acc.resolved_map (txnEventId db pdu) (.ok ())
          appended := acc.appended ++ [txnEventId db pdu] }) ∧
    (∀ e, pdu.state_key.isNone = false → txnResolve db pdu = .error e →
      sendTxnGo db (pdu :: rest) acc = sendTxnGo db rest
        { acc with
          resolved_map := alInsert acc.resolved_map (txnEventId db pdu) (.error e) }) := by
  refine ⟨fun h1 h2 => ?_, fun h1 h2 => ?_, fun e h1 h2 => ?_⟩
  · simp [sendTxnGo, h1, h2]
  · simp [sendTxnGo, h1, h2]
  · simp [sendTxnGo, h1, h2]

/-- C1 witness: the amended statement applied to the concrete
aborting transaction. -/
theorem C1_transaction_abort_witness :
    sendTxnGo txnDbNoJoin [pduMsg, pduMsg2] { resolved_map := [], appended := [] } =
      .error .forbidden :=
  (C1_transaction_abort_amended txnDbNoJoin pduMsg [pduMsg2]
    { resolved_map := [], appended := [] }).1 rfl rfl

/-! ## Claim C2 -/

/-- C2 counterexample: first, resolution places the state PDU's
event id in its own slot but the room is unknown locally: the PDU is
neither appended nor given any entry (the claim requires it to be
appended).  Second, resolution places the event id under a different
slot than the event's own: the PDU is appended and recorded `Ok` (the
claim requires an `AuthFailed` entry), because the source checks
membership among all values rather than the corresponding slot. -/
theorem C2_state_append_counterexample :
    txnResolve txnDbSlotNoRoom pduState = .ok [(("m.room.topic", some ""), "$3v6")] ∧
    alLookup [(("m.room.topic", some ""), "$3v6")] (pduState.kind, pduState.state_key) =
      some (txnEventId txnDbSlotNoRoom pduState) ∧
    txnDbSlotNoRoom.exists_room pduState.room_id = false ∧
    send_transaction_message_route txnDbSlotNoRoom [pduState] =
      .ok { resolved_map := [], appended := [] } ∧
    txnResolve txnDbWrongSlot pduState = .ok [(("m.room.name", some ""), "$3v6")] ∧
    alLookup [(("m.room.name", some ""), "$3v6")] (pduState.kind, pduState.state_key) = none ∧
    send_transaction_message_route txnDbWrongSlot [pduState] =
      .ok { resolved_map := [("$3v6", .ok ())], appended := ["$3v6"] } :=
  ⟨rfl, rfl, rfl, rfl, rfl, rfl, rfl⟩

/-- C2 amended: a state PDU is appended (and recorded `Ok`) iff the
resolved state map contains the derived event id among its values —
in any slot, not specifically the corresponding one — and the room
exists locally; when the map contains the id but the room is unknown,
the PDU is skipped with no entry at all; only when the map does not
contain the id is an authentication-failure entry recorded. -/
theorem C2_state_append_amended (db : TxnDb) (pdu : InPdu) (rest : List InPdu)
    (acc : TxnOutcome) (resolved : SMap String) :
    pdu.state_key.isNone = false →
    txnResolve db pdu = .ok resolved →
    ((resolved.any (fun kv => kv.2 == txnEventId db pdu) = true →
        db.exists_room pdu.room_id = true →
        sendTxnGo db (pdu :: rest) acc = sendTxnGo db rest
          { resolved_map := alInsert acc.resolved_map (txnEventId db pdu) (.ok ())
            appended := acc.appended ++ [txnEventId db pdu] }) ∧
      (resolved.any (fun kv => kv.2 == txnEventId db pdu) = true →
        db.exists_room pdu.room_id = false →
        sendTxnGo db (pdu :: rest) acc = sendTxnGo db rest acc) ∧
      (resolved.any (fun kv => kv.2 == txnEventId db pdu) = false →
        sendTxnGo db (pdu :: rest) acc = sendTxnGo db rest
          { acc with
            resolved_map := alInsert acc.resolved_map (txnEventId db pdu)
              (.error "This event failed authentication") })) := by
  intro hs hr
  refine ⟨fun h1 h2 => ?_, fun h1 h2 => ?_, fun h1 => ?_⟩
  · simp [sendTxnGo, hs, hr, h1, h2]
  · simp [sendTxnGo, hs, hr, h1, h2]
  · simp [sendTxnGo, hs, hr, h1]

/-- C2 witness: the amended statement applied to the wrong-slot
instance, where the PDU is appended. -/
theorem C2_state_append_witness :
    sendTxnGo txnDbWrongSlot [pduState] { resolved_map := [], appended := [] } =
      sendTxnGo txnDbWrongSlot []
        { resolved_map :=
            alInsert [] (txnEventId txnDbWrongSlot pduState) (.ok ())
          appended := [] ++ [txnEventId txnDbWrongSlot pduState] } :=
  ((C2_state_append_amended txnDbWrongSlot pduState []
      { resolved_map := [], appended := [] }
      [(("m.room.name", some ""), "$3v6")] rfl rfl).1 rfl rfl)

/-! ## Claim C7 -/

/-- The inner conflict scan: starting from a duplicate-free
accumulator, it completes with the entries appended exactly when the
combined keys stay duplicate-free, and reports a conflict exactly
otherwise. -/
theorem insertAllBreak_spec (st : SMap String) :
    ∀ acc : SMap String, (keysOf acc).Nodup →
      ((keysOf acc ++ keysOf st).Nodup → insertAllBreak st acc = (acc ++ st, false)) ∧
      (¬ (keysOf acc ++ keysOf st).Nodup → (insertAllBreak st acc).2 = true) := by
  induction st with
  | nil =>
    intro acc hacc
    constructor
    · intro _
      simp [insertAllBreak]
    · intro h
      exact (h (by simpa [keysOf] using hacc)).elim
  | cons p rest ih =>
    rcases p with ⟨k, v⟩
    intro acc hacc
    by_cases hk : k ∈ keysOf acc
    · have hcont : alContains acc k = true := by
        unfold alContains
        cases hcase : alLookup acc k with
        | none => exact absurd ((alLookup_eq_none_iff acc k).mp hcase) (by simpa using hk)
        | some x => rfl
      constructor
      · intro hnd
        exfalso
        rw [List.nodup_append] at hnd
        exact hnd.2.2 hk (by simp [keysOf])
      · intro _
        simp [insertAllBreak, hcont]
    · have hcont : alContains acc k = false := by
        unfold alContains
        rw [(alLookup_eq_none_iff acc k).mpr hk]
        rfl
      have hins : alInsert acc k v = acc ++ [(k, v)] := alInsert_fresh acc k v hk
      have hkeys : keysOf (acc ++ [(k, v)]) = keysOf acc ++ [k] := by simp [keysOf]
      have hacc' : (keysOf (alInsert acc k v)).Nodup := by
        rw [hins, hkeys, List.nodup_append]
        refine ⟨hacc, List.nodup_singleton k, ?_⟩
        intro a ha hb
        rw [List.mem_singleton] at hb
        subst hb
        exact hk ha
      have hperm : keysOf acc ++ k :: keysOf rest =
          keysOf (alInsert acc k v) ++ keysOf rest := by
        rw [hins, hkeys, List.append_assoc, List.singleton_append]
      have hih := ih (alInsert acc k v) hacc'
      constructor
      · intro hnd
        have hnd' : (keysOf (alInsert acc k v) ++ keysOf rest).Nodup := by
          rw [← hperm]
          simpa [keysOf] using hnd
        have hres := hih.1 hnd'
        simp only [insertAllBreak, hcont, Bool.false_eq_true, if_false]
        rw [hres, hins, List.append_assoc, List.singleton_append]
      · intro hnd
        have hnd' : ¬ (keysOf (alInsert acc k v) ++ keysOf rest).Nodup := by
          rw [← hperm]
          intro hcon
          exact hnd (by simpa [keysOf] using hcon)
        have hres := hih.2 hnd'
        simp only [insertAllBreak, hcont, Bool.false_eq_true, if_false]
        exact hres

/-- The outer conflict scan: from a duplicate-free accumulator it
returns the appended concatenation of all group maps with no conflict
exactly when all keys are globally duplicate-free, and reports a
conflict exactly otherwise. -/
theorem buildUnion_spec (sgs : List (StateId × SMap String)) :
    ∀ acc : SMap String, (keysOf acc).Nodup →
      ((keysOf acc ++ allSlotKeys sgs).Nodup →
        buildUnion sgs acc = (acc ++ sgs.flatMap Prod.snd, false)) ∧
      (¬ (keysOf acc ++ allSlotKeys sgs).Nodup → (buildUnion sgs acc).2 = true) := by
  induction sgs with
  | nil =>
    intro acc hacc
    constructor
    · intro _
      simp [buildUnion]
    · intro h
      exact (h (by simpa [allSlotKeys, keysOf] using hacc)).elim
  | cons p rest ih =>
    rcases p with ⟨sg, st⟩
    intro acc hacc
    by_cases hst : (keysOf acc ++ keysOf st).Nodup
    · have hI := (insertAllBreak_spec st acc hacc).1 hst
      have hacc' : (keysOf (acc ++ st)).Nodup := by
        simpa [keysOf] using hst
      have hih := ih (acc ++ st) hacc'
      constructor
      · intro hnd
        have hnd' : (keysOf (acc ++ st) ++ allSlotKeys rest).Nodup := by
          simpa [keysOf, allSlotKeys, List.append_assoc] using hnd
        have hres := hih.1 hnd'
        simp only [buildUnion, hI, hres]
        rw [List.append_assoc]
        simp [allSlotKeys]
      · intro hnd
        have hnd' : ¬ (keysOf (acc ++ st) ++ allSlotKeys rest).Nodup := by
          intro hcon
          exact hnd (by simpa [keysOf, allSlotKeys, List.append_assoc] using hcon)
        have hres := hih.2 hnd'
        simp only [buildUnion, hI]
        exact hres
    · have hI := (insertAllBreak_spec st acc hacc).2 hst
      constructor
      · intro hnd
        exfalso
        apply hst
        have hnd2 : ((keysOf acc ++ keysOf st) ++ allSlotKeys rest).Nodup := by
          rw [List.append_assoc]
          simpa [allSlotKeys] using hnd
        exact hnd2.sublist (List.sublist_append_left _ _)
      · intro _
        cases hIB : insertAllBreak st acc with
        | mk acc' flag =>
          rw [hIB] at hI
          subst hI
          simp [buildUnion, hIB]

/-- C7 counterexample: two input state groups with byte-identical
single-slot maps — they agree on every shared slot — nevertheless
trigger the full resolution algorithm, whose entry `todo!()` diverges
in this source (the distinguished `panicTodo` outcome); no entry with
the passed-through slot is produced. -/
theorem C7_conflict_detection_counterexample :
    resolve_state_groups "gen" "!r:remote" [(1, cexAgree), (2, cexAgree)] none =
      .error .panicTodo ∧
    (∀ entry : StateCacheEntry,
      ¬ (resolve_state_groups "gen" "!r:remote" [(1, cexAgree), (2, cexAgree)] none =
        .ok entry)) := by
  refine ⟨rfl, ?_⟩
  intro entry h
  have h0 : (Except.error RErr.panicTodo : Except RErr StateCacheEntry) = .ok entry :=
    Eq.trans (by rfl) h
  cases h0

/-- C7 amended: a slot passes through unchanged only when it occurs
in exactly one input map.  Resolution is invoked whenever some
`(type, state_key)` key occurs in two input maps — even when both map
it to the same event id — and in this source that invocation
diverges; when every key occurs in exactly one input the union of the
inputs is passed to cache construction unchanged, and lookups on a
duplicate-free map return each stored binding. -/
theorem C7_conflict_detection_amended (g room : String)
    (sgs : List (StateId × SMap String)) (em : Option (SMap String)) :
    ((allSlotKeys sgs).Nodup →
      resolve_state_groups g room sgs em =
        .ok (make_state_cache g (sgs.flatMap Prod.snd) sgs)) ∧
    (¬ (allSlotKeys sgs).Nodup →
      resolve_state_groups g room sgs em = .error .panicTodo) ∧
    (∀ ns, (make_state_cache g ns sgs).state = ns) ∧
    (∀ (l : SMap String) (k : SlotKey) (v : String),
      (keysOf l).Nodup → (k, v) ∈ l → alLookup l k = some v) := by
  refine ⟨?_, ?_, ?_, fun l k v h1 h2 => alLookup_mem_of_nodup l k v h1 h2⟩
  · intro hnd
    have h := (buildUnion_spec sgs [] (by simp [keysOf])).1 (by simpa [keysOf] using hnd)
    simp [resolve_state_groups, h]
  · intro hnd
    have h := (buildUnion_spec sgs [] (by simp [keysOf])).2
      (fun hcon => hnd (by simpa [keysOf] using hcon))
    cases hB : buildUnion sgs [] with
    | mk ns flag =>
      rw [hB] at h
      subst h
      simp [resolve_state_groups, hB, resolve_events_with_db]
  · intro ns
    unfold make_state_cache
    cases h : findEqualGroup ns sgs <;> simp [StateCacheEntry.new]

/-- C7 witness: the amended statement applied to two groups with
disjoint slots, where the union passes through. -/
theorem C7_conflict_detection_witness :
    resolve_state_groups "gen" "!u:remote" [(1, [(slotA, "$x")]), (2, [(slotB, "$y")])] none =
      .ok (make_state_cache "gen"
        (([(1, [(slotA, "$x")]), (2, [(slotB, "$y")])] :
            List (StateId × SMap String)).flatMap Prod.snd)
        [(1, [(slotA, "$x")]), (2, [(slotB, "$y")])]) :=
  (C7_conflict_detection_amended "gen" "!u:remote"
    [(1, [(slotA, "$x")]), (2, [(slotB, "$y")])] none).1 (by decide)

/-! ## Claim C8 -/

/-- Soundness of the equality scan of `make_state_cache`: a returned
group is an input group whose map has the resolved map's length and
the same set of entry pairs. -/
theorem findEqualGroup_some (ns : SMap String) (sgs : List (StateId × SMap String)) :
    ∀ sg : StateId, findEqualGroup ns sgs = some sg →
      ∃ st, (sg, st) ∈ sgs ∧ ns.length = st.length ∧ eqSetPairs ns st = true := by
  induction sgs with
  | nil =>
    intro sg h
    cases h
  | cons p rest ih =>
    rcases p with ⟨sg', st'⟩
    intro sg h
    simp only [findEqualGroup] at h
    by_cases hc : (ns.length == st'.length && eqSetPairs ns st') = true
    · rw [if_pos hc] at h
      injection h with h'
      subst h'
      rw [Bool.and_eq_true] at hc
      exact ⟨st', List.mem_cons_self _ _, by simpa using hc.1, hc.2⟩
    · rw [if_neg hc] at h
      obtain ⟨st, hmem, hlen, heq⟩ := ih sg h
      exact ⟨st, List.mem_cons_of_mem _ hmem, hlen, heq⟩

/-- Completeness of the equality scan: if some input group's map
equals the resolved map as a set of entries (with equal length), the
scan finds a group. -/
theorem findEqualGroup_isSome (ns : SMap String) (sgs : List (StateId × SMap String)) :
    ∀ p ∈ sgs, ns.length = p.2.length → eqSetPairs ns p.2 = true →
      (findEqualGroup ns sgs).isSome = true := by
  induction sgs with
  | nil =>
    intro p hp
    cases hp
  | cons q rest ih =>
    rcases q with ⟨sg', st'⟩
    intro p hp hlen heq
    simp only [findEqualGroup]
    by_cases hc : (ns.length == st'.length && eqSetPairs ns st') = true
    · rw [if_pos hc]
      rfl
    · rw [if_neg hc]
      rcases List.mem_cons.mp hp with hpe | hmem
      · exfalso
        apply hc
        subst hpe
        rw [Bool.and_eq_true]
        exact ⟨Nat.beq_eq_true_eq _ _ ▸ (by simpa using hlen), heq⟩
      · exact ih p hmem hlen heq

/-- Invariant of the second loop of `make_state_cache`: folding the
remaining groups preserves `AccOk`. -/
theorem pickPrev_inv (ns : SMap String) :
    ∀ (gs seen : List (StateId × SMap String)) (acc : PrevAcc),
      AccOk ns seen acc → AccOk ns (seen ++ gs) (gs.foldl (pickPrevStep ns) acc)
  | [], seen, acc, h => by simpa using h
  | g :: rest, seen, acc, h => by
    have hstep : AccOk ns (seen ++ [g]) (pickPrevStep ns acc g) := by
      rcases g with ⟨sg, st⟩
      simp only [pickPrevStep]
      by_cases hgt : (oneWayDelta ns st).length > acc.delta_len
      · rw [if_pos hgt]
        refine Or.inr ⟨sg, st, ?_, rfl, rfl, rfl, ?_, ?_⟩
        · exact List.mem_append.mpr (Or.inr (by simp))
        · show (oneWayDelta ns st).length ≠ 0
          omega
        · intro p hp
          show (oneWayDelta ns p.2).length ≤ (oneWayDelta ns st).length
          rcases List.mem_append.mp hp with hseen | hg
          · rcases h with ⟨_, _, hzero, hall⟩ | ⟨pg, st0, _, _, _, hlen0, _, hall⟩
            · have hb := hall p hseen
              omega
            · have hb := hall p hseen
              omega
          · rw [List.mem_singleton] at hg
            subst hg
            exact le_refl _
      · rw [if_neg hgt]
        rcases h with ⟨h1, h2, h3, hall⟩ | ⟨pg, st0, hmem, h1, h2, h3, h4, hall⟩
        · refine Or.inl ⟨h1, h2, h3, ?_⟩
          intro p hp
          rcases List.mem_append.mp hp with hseen | hg
          · exact hall p hseen
          · rw [List.mem_singleton] at hg
            subst hg
            show (oneWayDelta ns st).length = 0
            omega
        · refine Or.inr ⟨pg, st0, List.mem_append.mpr (Or.inl hmem), h1, h2, h3, h4, ?_⟩
          intro p hp
          rcases List.mem_append.mp hp with hseen | hg
          · exact hall p hseen
          · rw [List.mem_singleton] at hg
            subst hg
            show (oneWayDelta ns st).length ≤ acc.delta_len
            omega
    have hrec := pickPrev_inv ns rest (seen ++ [g]) (pickPrevStep ns acc g) hstep
    rw [List.foldl_cons]
    simpa [List.append_assoc] using hrec

/-- C8 counterexample: with `cexNew` resolved from groups 1 (one-way
delta of length 1, i.e. the largest overlap) and 2 (one-way delta of
length 2, no overlap), the code picks group 2 — the group with the
LARGEST delta, hence the smallest overlap — as `prev_group`.  And for
a single input group, the recorded `delta_ids` is the one-way delta
of the resolved map against the group, not the symmetric difference
(which also contains the group's own stale entry). -/
theorem C8_cache_entry_counterexample :
    (make_state_cache "gen8" cexNew cexGroups).prev_group = some 2 ∧
    (oneWayDelta cexNew [(slotA, "$x")]).length = 1 ∧
    (oneWayDelta cexNew []).length = 2 ∧
    ¬ ((make_state_cache "gen8" cexNew cexGroups).prev_group = some 1) ∧
    (make_state_cache "gen8" cexNew2 cexGroups2).delta_ids = some [(slotA, "$x")] ∧
    symmDiffPairs [(slotB, "$z")] cexNew2 = [(slotB, "$z"), (slotA, "$x")] ∧
    ¬ ((make_state_cache "gen8" cexNew2 cexGroups2).delta_ids =
      some (symmDiffPairs [(slotB, "$z")] cexNew2)) :=
  ⟨rfl, rfl, rfl, by decide, rfl, rfl, by decide⟩

/-- C8 amended: if the resolved map equals an input group's map as a
set of entry pairs, that group's ID is returned as `state_group` with
no `prev_group` and no `delta_ids` (soundness and completeness of the
equality scan).  Otherwise either every group's one-way delta is
empty and neither `prev_group` nor `delta_ids` is set, or `prev_group`
is an input group whose one-way delta — the resolved-map entries
differing from that group, not the symmetric difference — is nonempty
and of MAXIMAL length among the input groups (smallest overlap), and
`delta_ids` is exactly that one-way delta. -/
theorem C8_cache_entry_amended (g : String) (ns : SMap String)
    (sgs : List (StateId × SMap String)) :
    (∀ sg, (make_state_cache g ns sgs).state_group = some sg →
      (∃ st, (sg, st) ∈ sgs ∧ ns.length = st.length ∧ eqSetPairs ns st = true) ∧
      (make_state_cache g ns sgs).prev_group = none ∧
      (make_state_cache g ns sgs).delta_ids = none) ∧
    (∀ p ∈ sgs, ns.length = p.2.length → eqSetPairs ns p.2 = true →
      ((make_state_cache g ns sgs).state_group).isSome = true) ∧
    ((make_state_cache g ns sgs).state_group = none →
      ((make_state_cache g ns sgs).prev_group = none ∧
        (make_state_cache g ns sgs).delta_ids = none ∧
        ∀ p ∈ sgs, (oneWayDelta ns p.2).length = 0) ∨
      (∃ pg st, (pg, st) ∈ sgs ∧
        (make_state_cache g ns sgs).prev_group = some pg ∧
        (make_state_cache g ns sgs).delta_ids = some (oneWayDelta ns st) ∧
        (oneWayDelta ns st).length ≠ 0 ∧
        ∀ p ∈ sgs, (oneWayDelta ns p.2).length ≤ (oneWayDelta ns st).length)) := by
  cases hFind : findEqualGroup ns sgs with
  | some sg' =>
    refine ⟨?_, ?_, ?_⟩
    · intro sg hsg
      have hg : (make_state_cache g ns sgs).state_group = some sg' := by
        simp [make_state_cache, hFind, StateCacheEntry.new]
      rw [hg] at hsg
      injection hsg with hsg'
      subst hsg'
      exact ⟨findEqualGroup_some ns sgs _ hFind, by
        simp [make_state_cache, hFind, StateCacheEntry.new], by
        simp [make_state_cache, hFind, StateCacheEntry.new]⟩
    · intro p _ _ _
      simp [make_state_cache, hFind, StateCacheEntry.new]
    · intro hnone
      rw [show (make_state_cache g ns sgs).state_group = some sg' from by
        simp [make_state_cache, hFind, StateCacheEntry.new]] at hnone
      cases hnone
  | none =>
    have hmk : make_state_cache g ns sgs =
        StateCacheEntry.new g ns none
          (sgs.foldl (pickPrevStep ns) ⟨none, none, 0⟩).prev_group
          (sgs.foldl (pickPrevStep ns) ⟨none, none, 0⟩).delta_ids := by
      simp [make_state_cache, hFind]
    refine ⟨?_, ?_, ?_⟩
    · intro sg hsg
      rw [hmk] at hsg
      simp [StateCacheEntry.new] at hsg
    · intro p hp hlen heq
      have := findEqualGroup_isSome ns sgs p hp hlen heq
      rw [hFind] at this
      cases this
    · intro _
      have hInv : AccOk ns ([] ++ sgs) (sgs.foldl (pickPrevStep ns) ⟨none, none, 0⟩) :=
        pickPrev_inv ns sgs [] ⟨none, none, 0⟩
          (Or.inl ⟨rfl, rfl, rfl, fun p hp => absurd hp (List.not_mem_nil p)⟩)
      rw [List.nil_append] at hInv
      rcases hInv with ⟨h1, h2, _, hall⟩ | ⟨pg, st0, hmem, h1, h2, h3, h4, hall⟩
      · refine Or.inl ⟨?_, ?_, hall⟩
        · rw [hmk]
          simpa [StateCacheEntry.new] using h1
        · rw [hmk]
          simpa [StateCacheEntry.new] using h2
      · refine Or.inr ⟨pg, st0, hmem, ?_, ?_, ?_, ?_⟩
        · rw [hmk]
          simpa [StateCacheEntry.new] using h1
        · rw [hmk]
          simpa [StateCacheEntry.new] using h2
        · omega
        · intro p hp
          have := hall p hp
          omega

/-- C8 witness: the amended statement applied to the concrete
instances — the equality case with a reordered map, and the
delta case at `cexGroups`, whose chosen group's one-way delta has
maximal length. -/
theorem C8_cache_entry_witness :
    ((∃ st, ((3 : StateId), st) ∈ cexGroupsEq ∧ cexNew.length = st.length ∧
        eqSetPairs cexNew st = true) ∧
      (make_state_cache "gen8" cexNew cexGroupsEq).prev_group = none ∧
      (make_state_cache "gen8" cexNew cexGroupsEq).delta_ids = none) ∧
    (((make_state_cache "gen8" cexNew cexGroups).prev_group = none ∧
        (make_state_cache "gen8" cexNew cexGroups).delta_ids = none ∧
        ∀ p ∈ cexGroups, (oneWayDelta cexNew p.2).length = 0) ∨
      (∃ pg st, (pg, st) ∈ cexGroups ∧
        (make_state_cache "gen8" cexNew cexGroups).prev_group = some pg ∧
        (make_state_cache "gen8" cexNew cexGroups).delta_ids =
          some (oneWayDelta cexNew st) ∧
        (oneWayDelta cexNew st).length ≠ 0 ∧
        ∀ p ∈ cexGroups,
          (oneWayDelta cexNew p.2).length ≤ (oneWayDelta cexNew st).length)) :=
  ⟨(C8_cache_entry_amended "gen8" cexNew cexGroupsEq).1 3 (by decide),
   (C8_cache_entry_amended "gen8" cexNew cexGroups).2.2 (by decide)⟩
